import Mathlib

set_option linter.unusedVariables false

/-!
Formal model of the Univention Directory Listener's handler dispatch
(handler.c) and of the notifier main loop (notifier.c).

The handler dispatch functions (`insert_handler`, `handler_exec`,
`handler__update`, `handlers_update`, `handlers_delete`) are translated
directly from handler.c.  The cache-entry helpers (cache.c) and the Python
hooks live outside the translated sources; the module-present set is
modelled as a list of handler names per the data model, and the outcome of
the LDAP filter match and of each Python hook call is an oracle.
-/

/-- Handler record (handler.c, struct Handler from handlers.h).  Only the
fields read by the dispatch logic are modelled; the Python callables
(handler, prerun, postrun, ...) are abstracted by the `HookEnv` oracles. -/
structure Handler where
  name : String
  priority : Rat
  attributes : Option (List String)
  handle_every_delete : Bool
  modrdn : Bool
  state : Nat
deriving Repr, DecidableEq

/-- Value of the HANDLER_READY bit from handlers.h (header not among the
translated sources); the data model only requires a persisted state bit-set
with a READY bit, and none of the dispatch logic depends on its value. -/
def HANDLER_READY : Nat := 2

/-- Oracles for effects decided outside handler.c for one fixed transaction:
the INIT_ONLY flag of the listener process, the outcome of
cache_entry_ldap_filter_match for the handler's filters against the
transaction's dn and new entry, and whether the handler's Python handle hook
returns None without raising. -/
structure HookEnv where
  initOnly : Bool
  filterMatch : Handler → Bool
  hookOk : Handler → Bool

/-- Modelled from the spec: cache_entry_module_present (cache.c is not among
the translated sources); the module-present set of an entry is the set of
handler names that processed it, here a list of names. -/
def cache_entry_module_present (s : List String) (n : String) : Bool :=
  s.contains n

/-- Modelled from the spec: cache_entry_module_add inserts a handler name
into the module-present set. -/
def cache_entry_module_add (s : List String) (n : String) : List String :=
  if s.contains n then s else s ++ [n]

/-- Modelled from the spec: cache_entry_module_remove removes a handler name
from the module-present set. -/
def cache_entry_module_remove (s : List String) (n : String) : List String :=
  s.filter (fun m => m != n)

/-- attribute_has_changed (handler.c:721): strcmp scan of the changed
attribute list. -/
def attribute_has_changed (changes : List String) (a : String) : Bool :=
  changes.contains a

/-- handler_exec (handler.c:412): a handler whose persisted state lacks the
READY bit is rejected with return value 1 before its handle hook is called,
unless the listener runs in initialize-only mode; otherwise the Python
handle hook runs.  The C code distinguishes a raised exception (-1) from a
non-None return value (1); both are nonzero failures, collapsed here into 1
through the hookOk oracle.  Result: return value, plus the names whose
handle hook actually ran. -/
def handler_exec (env : HookEnv) (h : Handler) (command : Char) :
    Int × List String :=
  if h.state &&& HANDLER_READY ≠ HANDLER_READY ∧ env.initOnly = false then
    (1, [])
  else if env.hookOk h then (0, [h.name]) else (1, [h.name])

/-- Up-to-date short-circuit of handler__update (handler.c:746-769): a
handler not named replication that is recorded in the old entry's
module-present set is up to date when the change list is NULL, or when its
declared attribute list is non-empty and no declared attribute occurs in the
change list. -/
def handler_uptodate (h : Handler) (oldPresent : List String)
    (changes : Option (List String)) : Bool :=
  if h.name ≠ "replication" ∧ cache_entry_module_present oldPresent h.name then
    match changes with
    | none => true
    | some cs =>
      match h.attributes with
      | none => false
      | some al => !al.isEmpty && al.all (fun a => !attribute_has_changed cs a)
  else false

/-- handler__update (handler.c:735): dispatch of one handler for a
non-delete transaction.  An up-to-date handler is re-asserted into the new
entry's module-present set without running; otherwise the filter is matched
and, on a match, the handler executes; only success adds the name.  Result:
new entry's module-present set, return value, handle hooks invoked. -/
def handler__update (env : HookEnv) (h : Handler)
    (newPresent oldPresent : List String) (command : Char)
    (changes : Option (List String)) : List String × Int × List String :=
  if handler_uptodate h oldPresent changes then
    (cache_entry_module_add newPresent h.name, 0, [])
  else if env.filterMatch h = false then
    (newPresent, 0, [])
  else
    let r := handler_exec env h command
    if r.1 = 0 then (cache_entry_module_add newPresent h.name, 0, r.2)
    else (newPresent, 1, r.2)

/-- One loop of handlers_update (handler.c:801-810): handler__update runs on
every handler satisfying the predicate, threading the new entry's
module-present set and concatenating the invocation traces. -/
def handlers_pass (env : HookEnv) (pred : Handler → Bool) (hs : List Handler)
    (newPresent oldPresent : List String) (command : Char)
    (changes : Option (List String)) : List String × List String :=
  match hs with
  | [] => (newPresent, [])
  | h :: t =>
    if pred h then
      let r := handler__update env h newPresent oldPresent command changes
      let rest := handlers_pass env pred t r.1 oldPresent command changes
      (rest.1, r.2.2 ++ rest.2)
    else handlers_pass env pred t newPresent oldPresent command changes

/-- handlers_update (handler.c:792): a first pass runs the handlers named
replication, a second pass all others; the return value rv stays 0 no
matter what the individual handlers return.  The change list is
cache_entry_changed_attributes(new, old), computed by cache code outside
the translated sources, hence a parameter (NULL modelled as none). -/
def handlers_update (env : HookEnv) (hs : List Handler)
    (newPresent oldPresent : List String) (command : Char)
    (changes : Option (List String)) : List String × Int × List String :=
  let p1 := handlers_pass env (fun h => h.name == "replication") hs
    newPresent oldPresent command changes
  let p2 := handlers_pass env (fun h => h.name != "replication") hs
    p1.1 oldPresent command changes
  (p2.1, 0, p1.2 ++ p2.2)

/-- handlers_delete (handler.c:835): on a DELETE transaction a handler is
skipped unless its name is in the old entry's module-present set, it is
named replication, or its handle_every_delete flag is set; a successful
execution removes the handler's name from the set; any failure makes the
sticky return value 1.  Result: remaining module-present set, return value,
handle hooks invoked. -/
def handlers_delete (env : HookEnv) (hs : List Handler) (old : List String)
    (command : Char) : List String × Int × List String :=
  match hs with
  | [] => (old, 0, [])
  | h :: t =>
    if !cache_entry_module_present old h.name ∧ h.name ≠ "replication" ∧
        !h.handle_every_delete then
      handlers_delete env t old command
    else
      let r := handler_exec env h command
      if r.1 = 0 then
        let rest := handlers_delete env t (cache_entry_module_remove old h.name) command
        (rest.1, rest.2.1, r.2 ++ rest.2.2)
      else
        let rest := handlers_delete env t old command
        (rest.1, 1, r.2 ++ rest.2.2)

/-- insert_handler (handler.c:212): insertion into the priority-sorted
handler list; the scan advances past every handler whose priority is ≤ the
new handler's, so handlers of equal priority keep load order. -/
def insert_handler (hs : List Handler) (handler : Handler) : List Handler :=
  match hs with
  | [] => [handler]
  | h :: t =>
    if h.priority ≤ handler.priority then h :: insert_handler t handler
    else handler :: h :: t

/-- Handler list built by importing modules in load order (handler_import
calls insert_handler once per module, handler.c:329). -/
def load_handlers (loads : List Handler) : List Handler :=
  loads.foldl insert_handler []

/-- Condition under which handler__update actually calls the handle hook:
not short-circuited as up to date, filter matched, and the READY gate of
handler_exec passed. -/
def handler_ready (h : Handler) : Bool :=
  h.state &&& HANDLER_READY == HANDLER_READY

/-- Predicate for a hook invocation by handler__update. -/
def runsHook (env : HookEnv) (h : Handler) (oldPresent : List String)
    (changes : Option (List String)) : Bool :=
  !handler_uptodate h oldPresent changes && env.filterMatch h &&
    (handler_ready h || env.initOnly)

/- ------------------------------------------------------------------ -/
/- Notifier main loop (notifier.c). -/

/-- DELAY_LDAP_CLOSE (notifier.c:65): idle seconds before the LDAP
connections are closed and the postrun handlers run. -/
def DELAY_LDAP_CLOSE : Nat := 15

/-- DELAY_ALIVE (notifier.c:66): idle seconds between keepalive pings once
the first idle timeout has passed. -/
def DELAY_ALIVE : Nat := 300

/-- Notifier announcement as received at notifier.c:197: the transaction id
plus the command payload; none models the NUL command of protocol version 3,
where dn and command are fetched from the translog instead. -/
structure NotifyEntry where
  id : Nat
  command : Option Char
deriving Repr, DecidableEq

/-- Externally visible actions of one notifier_listen iteration. -/
inductive NAction
  | cacheUpdate
  | txAppendPrev
  | txAppendCur
  | cursorAdvance
deriving Repr, DecidableEq

/-- Outcome of one notifier_listen iteration.  fatalOrdering is the rv = 1
path of the transaction-id consistency check; halt is the goto out with
rv = 0 when failed.ldif exists; stashContinue is the continue taken while a
previous command is stashed and the current one has no command. -/
inductive StepOutcome
  | fatalOrdering
  | fatalLdap
  | fatalChange
  | fatalTxWrite
  | halt
  | stashContinue (newId : Nat)
  | committed (newId : Nat)
deriving Repr, DecidableEq

/-- Oracles for the collaborators of one notifier_listen iteration that live
outside the translated sources: LDAP open and translog fetch,
change_update_dn, the failed.ldif test, the stash state of the transaction
pair after change_update_dn, and the two transaction-file appends. -/
structure StepEnv where
  ldapOk : Bool
  changeUpdateOk : Bool
  failedLdif : Bool
  prevPending : Bool
  curPending : Bool
  writePrevOk : Bool
  writeCurOk : Bool
deriving Repr, DecidableEq

/-- One iteration of the notifier_listen main loop (notifier.c:199-248) from
the point the get_dn result is in, given the persisted cursor id.  In every
non-fatal path the cursor moves to id + 1: the legacy protocol must announce
exactly id + 1 to pass the ordering check and protocol version 3 overwrites
the announced id with id + 1 before the translog fetch.  Returns the ordered
actions performed and the outcome. -/
def notifier_step (env : StepEnv) (write_transaction_file : Bool) (id : Nat)
    (msg : NotifyEntry) : List NAction × StepOutcome :=
  if (msg.id ≠ id + 1 ∧ msg.command ≠ none) ∨ msg.id ≤ id then
    ([], StepOutcome.fatalOrdering)
  else if env.ldapOk = false then
    ([], StepOutcome.fatalLdap)
  else if env.changeUpdateOk = false then
    ([], StepOutcome.fatalChange)
  else if env.failedLdif then
    ([NAction.cacheUpdate], StepOutcome.halt)
  else if env.prevPending ∧ env.curPending = false then
    ([NAction.cacheUpdate], StepOutcome.stashContinue (id + 1))
  else if env.prevPending ∧ write_transaction_file ∧ env.writePrevOk = false then
    ([NAction.cacheUpdate], StepOutcome.fatalTxWrite)
  else
    let acts1 := if env.prevPending ∧ write_transaction_file then
      [NAction.cacheUpdate, NAction.txAppendPrev] else [NAction.cacheUpdate]
    if write_transaction_file ∧ env.writeCurOk = false then
      (acts1, StepOutcome.fatalTxWrite)
    else if write_transaction_file then
      (acts1 ++ [NAction.txAppendCur, NAction.cursorAdvance],
        StepOutcome.committed (id + 1))
    else
      (acts1 ++ [NAction.cursorAdvance], StepOutcome.committed (id + 1))

/-- Outcome of one notifier_wait call in the inner wait loop. -/
inductive WaitOutcome
  | timedOut
  | dataReady
  | recvFail
  | waitError
deriving Repr, DecidableEq

/-- Maintenance events of the inner wait loop. -/
inductive IdleEvent
  | unbindLdap
  | postrunAll
  | aliveCheck
  | resendGetDn
deriving Repr, DecidableEq

/-- Result of the inner wait loop: a message became available, the loop
failed (alive failure, recv failure or wait error, all returning 1), or the
modelled outcome list ran out. -/
inductive WaitResult
  | msgReady
  | failed
  | exhausted
deriving Repr, DecidableEq

/-- Inner wait loop of notifier_listen (notifier.c:158-190).  Each list
element is the outcome of one notifier_wait call with the current timeout
bound; on the first timeout (bound DELAY_LDAP_CLOSE) the LDAP connections
are closed and handlers_postrun_all runs, and the bound becomes DELAY_ALIVE;
on later timeouts only the keepalive ping fires.  idle accumulates idle
seconds; each event carries the idle time at which it fired. -/
def notifier_idle_loop (aliveOk : Bool) :
    List WaitOutcome → Nat → Nat → List (IdleEvent × Nat) × WaitResult
  | [], _, _ => ([], WaitResult.exhausted)
  | o :: rest, timeout, idle =>
    match o with
    | WaitOutcome.timedOut =>
      let idle2 := idle + timeout
      if timeout = DELAY_ALIVE then
        if aliveOk then
          let r := notifier_idle_loop aliveOk rest DELAY_ALIVE idle2
          ((IdleEvent.aliveCheck, idle2) :: (IdleEvent.resendGetDn, idle2) :: r.1,
            r.2)
        else ([(IdleEvent.aliveCheck, idle2)], WaitResult.failed)
      else
        let r := notifier_idle_loop aliveOk rest DELAY_ALIVE idle2
        ((IdleEvent.unbindLdap, idle2) :: (IdleEvent.postrunAll, idle2) :: r.1,
          r.2)
    | WaitOutcome.dataReady => ([], WaitResult.msgReady)
    | WaitOutcome.recvFail => ([], WaitResult.failed)
    | WaitOutcome.waitError => ([], WaitResult.failed)

/- ------------------------------------------------------------------ -/
/- Basic facts about the module-present set operations. -/

/-- Membership and the contains test of the module-present set agree. -/
theorem module_present_iff (s : List String) (n : String) :
    cache_entry_module_present s n = true ↔ n ∈ s := by
  unfold cache_entry_module_present
  exact List.elem_iff

/-- Membership after cache_entry_module_add. -/
theorem mem_module_add (s : List String) (n x : String) :
    x ∈ cache_entry_module_add s n ↔ x ∈ s ∨ x = n := by
  unfold cache_entry_module_add
  by_cases hc : s.contains n = true
  · rw [if_pos hc]
    constructor
    · exact fun h => Or.inl h
    · rintro (h | rfl)
      · exact h
      · exact List.elem_iff.mp hc
  · rw [if_neg hc]
    simp

/-- Membership after cache_entry_module_remove. -/
theorem mem_module_remove (s : List String) (n x : String) :
    x ∈ cache_entry_module_remove s n ↔ x ∈ s ∧ x ≠ n := by
  unfold cache_entry_module_remove
  simp [List.mem_filter]

/-- The name just removed is gone. -/
theorem not_mem_module_remove (s : List String) (n : String) :
    n ∉ cache_entry_module_remove s n := by
  intro h
  exact ((mem_module_remove s n n).mp h).2 rfl

/- ------------------------------------------------------------------ -/
/- Claim C1. -/

/-- Claim C1: for a non-delete transaction and a handler other than
replication, if the handler's name is in the old entry's module-present set,
its declared attributes list is non-empty and no changed attribute occurs in
it, then the handle hook is not invoked and the name is nevertheless added
to the new entry's module-present set. -/
theorem claim_c1_uptodate_short_circuit (env : HookEnv) (h : Handler)
    (np op cs al : List String) (cmd : Char)
    (hrepl : h.name ≠ "replication") (hmem : h.name ∈ op)
    (hattr : h.attributes = some al) (hne : al ≠ [])
    (hdisj : ∀ a ∈ al, a ∉ cs) :
    handler__update env h np op cmd (some cs) =
      (cache_entry_module_add np h.name, 0, []) := by
  have hup : handler_uptodate h op (some cs) = true := by
    unfold handler_uptodate
    rw [if_pos ⟨hrepl, (module_present_iff op h.name).mpr hmem⟩]
    simp only [hattr]
    rw [Bool.and_eq_true]
    constructor
    · cases al with
      | nil => exact absurd rfl hne
      | cons a t => simp [List.isEmpty]
    · rw [List.all_eq_true]
      intro a ha
      have : a ∉ cs := hdisj a ha
      simp [attribute_has_changed, this]
  unfold handler__update
  rw [if_pos hup]

/-- Witness for C1 at a concrete handler with attributes disjoint from the
changed set. -/
theorem claim_c1_witness :
    handler__update ⟨false, fun _ => true, fun _ => true⟩
      ⟨"bbb", 1, some ["uid"], false, false, 2⟩ [] ["bbb"] 'm' (some ["cn"]) =
      (cache_entry_module_add [] "bbb", 0, []) :=
  claim_c1_uptodate_short_circuit ⟨false, fun _ => true, fun _ => true⟩
    ⟨"bbb", 1, some ["uid"], false, false, 2⟩ [] ["bbb"] ["cn"] ["uid"] 'm'
    (by decide) (by decide) rfl (by decide) (by decide)

/- ------------------------------------------------------------------ -/
/- Claim C10. -/

/-- Claim C10: a handler whose persisted state lacks the READY bit, when the
listener is not in initialize-only mode, makes handler_exec return failure
without calling the handle hook, and handler__update then behaves exactly
like a failed hook: return value 1, no invocation, name withheld from the
new entry's module-present set. -/
theorem claim_c10_not_ready (env : HookEnv) (h : Handler)
    (np op : List String) (cmd : Char) (changes : Option (List String))
    (hnr : h.state &&& HANDLER_READY ≠ HANDLER_READY)
    (hio : env.initOnly = false)
    (hup : handler_uptodate h op changes = false)
    (hfm : env.filterMatch h = true) :
    handler_exec env h cmd = (1, []) ∧
    handler__update env h np op cmd changes = (np, 1, []) := by
  have he : handler_exec env h cmd = (1, []) := by
    unfold handler_exec
    rw [if_pos ⟨hnr, hio⟩]
  refine ⟨he, ?_⟩
  unfold handler__update
  rw [if_neg (by simp [hup]), if_neg (by simp [hfm]), he]
  simp

/-- Witness for C10: a handler with persisted state 0. -/
theorem claim_c10_witness :
    handler_exec ⟨false, fun _ => true, fun _ => true⟩
      ⟨"foo", 0, none, false, false, 0⟩ 'm' = (1, []) ∧
    handler__update ⟨false, fun _ => true, fun _ => true⟩
      ⟨"foo", 0, none, false, false, 0⟩ [] [] 'm' (some ["cn"]) =
      ([], 1, []) :=
  claim_c10_not_ready ⟨false, fun _ => true, fun _ => true⟩
    ⟨"foo", 0, none, false, false, 0⟩ [] [] 'm' (some ["cn"])
    (by decide) rfl (by decide) rfl

/- ------------------------------------------------------------------ -/
/- Claim C7. -/

/-- Claim C7: an announced transaction id different from cursor + 1 together
with a non-null command payload is a fatal ordering error: the iteration
performs no cache update, no transaction-file append and no cursor advance,
and the loop leaves with rv = 1. -/
theorem claim_c7_ordering_fatal (env : StepEnv) (wtf : Bool) (id : Nat)
    (msg : NotifyEntry) (h1 : msg.id ≠ id + 1) (h2 : msg.command ≠ none) :
    notifier_step env wtf id msg = ([], StepOutcome.fatalOrdering) := by
  unfold notifier_step
  rw [if_pos (Or.inl ⟨h1, h2⟩)]

/-- Witness for C7 at an announcement two ahead of the cursor. -/
theorem claim_c7_witness :
    notifier_step ⟨true, true, false, false, true, true, true⟩ true 500
      ⟨502, some 'm'⟩ = ([], StepOutcome.fatalOrdering) :=
  claim_c7_ordering_fatal ⟨true, true, false, false, true, true, true⟩ true 500
    ⟨502, some 'm'⟩ (by decide) (by decide)

/- ------------------------------------------------------------------ -/
/- Claim C8. -/

/-- Counterexample to C8 as stated: when the notifier reports an id equal to
the persisted cursor, the code does not yield silently; the iteration takes
the same fatal ordering branch as a gap would (notifier.c:199 tests
`trans.cur.notify.id <= id`), logging an error and returning rv = 1. -/
theorem claim_c8_counterexample :
    notifier_step ⟨true, true, false, false, true, true, true⟩ false 5
      ⟨5, some 'm'⟩ = ([], StepOutcome.fatalOrdering) := by decide

/-- Claim C8 (amended): whenever the notifier reports an id less than or
equal to the persisted cursor, the iteration invokes no handler, writes
neither cache nor transaction file and does not advance the cursor, but it
is treated as a fatal ordering error (rv = 1), not as a benign
"already processed" yield. -/
theorem claim_c8_amended (env : StepEnv) (wtf : Bool) (id : Nat)
    (msg : NotifyEntry) (h : msg.id ≤ id) :
    notifier_step env wtf id msg = ([], StepOutcome.fatalOrdering) := by
  unfold notifier_step
  rw [if_pos (Or.inr h)]

/-- Witness for the amended C8 at id equal to the cursor. -/
theorem claim_c8_witness :
    notifier_step ⟨true, true, false, false, true, true, true⟩ true 7
      ⟨7, some 'a'⟩ = ([], StepOutcome.fatalOrdering) :=
  claim_c8_amended ⟨true, true, false, false, true, true, true⟩ true 7
    ⟨7, some 'a'⟩ (by decide)

/- ------------------------------------------------------------------ -/
/- Claim C6. -/

/-- Claim C6: in one main-loop iteration the cache update (change_update_dn)
precedes the transaction-file append, which precedes the master-cursor
advance, and the cursor is never advanced when the cache update or (when
enabled) the transaction-file append for the current announcement failed. -/
theorem claim_c6_commit_order (env : StepEnv) (wtf : Bool) (id : Nat)
    (msg : NotifyEntry) :
    (NAction.cursorAdvance ∈ (notifier_step env wtf id msg).1 →
      NAction.cacheUpdate ∈ (notifier_step env wtf id msg).1 ∧
      (notifier_step env wtf id msg).1.indexOf NAction.cacheUpdate <
        (notifier_step env wtf id msg).1.indexOf NAction.cursorAdvance ∧
      (wtf = true →
        NAction.txAppendCur ∈ (notifier_step env wtf id msg).1 ∧
        (notifier_step env wtf id msg).1.indexOf NAction.cacheUpdate <
          (notifier_step env wtf id msg).1.indexOf NAction.txAppendCur ∧
        (notifier_step env wtf id msg).1.indexOf NAction.txAppendCur <
          (notifier_step env wtf id msg).1.indexOf NAction.cursorAdvance)) ∧
    (env.changeUpdateOk = false →
      NAction.cursorAdvance ∉ (notifier_step env wtf id msg).1) ∧
    (wtf = true → env.writeCurOk = false →
      NAction.cursorAdvance ∉ (notifier_step env wtf id msg).1) := by
  rcases env with ⟨l, cu, fl, pp, cp, wp, wc⟩
  by_cases h0 : ((msg.id ≠ id + 1 ∧ msg.command ≠ none) ∨ msg.id ≤ id)
  · simp only [notifier_step, if_pos h0]
    simp
  · simp only [notifier_step, if_neg h0]
    cases l <;> cases cu <;> cases fl <;> cases pp <;> cases cp <;>
      cases wp <;> cases wc <;> cases wtf <;>
      simp [List.indexOf_cons]

/-- Witness for C6: with the cache update failing, the cursor is not
advanced. -/
theorem claim_c6_witness :
    NAction.cursorAdvance ∉
      (notifier_step ⟨true, false, false, false, true, true, true⟩ true 5
        ⟨6, some 'm'⟩).1 :=
  (claim_c6_commit_order ⟨true, false, false, false, true, true, true⟩ true 5
    ⟨6, some 'm'⟩).2.1 rfl

/- ------------------------------------------------------------------ -/
/- Claim C9. -/

/-- Once the wait bound has switched to DELAY_ALIVE, the inner wait loop
never runs the postrun handlers again: all later timeouts take the
keepalive branch. -/
theorem idle_loop_alive_no_postrun (aliveOk : Bool) (outs : List WaitOutcome)
    (idle : Nat) (t : Nat) :
    (IdleEvent.postrunAll, t) ∉
      (notifier_idle_loop aliveOk outs DELAY_ALIVE idle).1 := by
  induction outs generalizing idle with
  | nil => simp [notifier_idle_loop]
  | cons o rest ih =>
    cases o with
    | timedOut =>
      cases aliveOk with
      | true =>
        simp [notifier_idle_loop]
        exact ih _
      | false => simp [notifier_idle_loop]
    | dataReady => simp [notifier_idle_loop]
    | recvFail => simp [notifier_idle_loop]
    | waitError => simp [notifier_idle_loop]

/-- Counterexample to C9 as stated: the postrun hooks run after the pipeline
has been idle for DELAY_LDAP_CLOSE = 15 seconds, which is earlier than the
claimed 300-second interval. -/
theorem claim_c9_counterexample :
    (notifier_idle_loop true [WaitOutcome.timedOut] DELAY_LDAP_CLOSE 0).1 =
      [(IdleEvent.unbindLdap, 15), (IdleEvent.postrunAll, 15)] ∧
    DELAY_LDAP_CLOSE < 300 := by decide

/-- Claim C9 (amended): in a wait loop started with bound DELAY_LDAP_CLOSE,
the postrun handlers run exactly when the pipeline has been idle for
15 seconds (the hard-coded DELAY_LDAP_CLOSE, not a configured 300-second
interval): every postrun event carries idle time 15, at most one postrun
event occurs per idle stretch, and if the first wait times out the postrun
event does occur at idle time 15. -/
theorem claim_c9_amended (aliveOk : Bool) (outs : List WaitOutcome) :
    (∀ t, (IdleEvent.postrunAll, t) ∈
        (notifier_idle_loop aliveOk outs DELAY_LDAP_CLOSE 0).1 →
      t = DELAY_LDAP_CLOSE) ∧
    (notifier_idle_loop aliveOk outs DELAY_LDAP_CLOSE 0).1.countP
        (fun e => e.1 == IdleEvent.postrunAll) ≤ 1 ∧
    (outs.head? = some WaitOutcome.timedOut →
      (IdleEvent.postrunAll, DELAY_LDAP_CLOSE) ∈
        (notifier_idle_loop aliveOk outs DELAY_LDAP_CLOSE 0).1) := by
  cases outs with
  | nil => simp [notifier_idle_loop]
  | cons o rest =>
    cases o with
    | timedOut =>
      have hne : ¬ (DELAY_LDAP_CLOSE = DELAY_ALIVE) := by decide
      simp only [notifier_idle_loop]
      rw [if_neg hne]
      refine ⟨?_, ?_, ?_⟩
      · intro t hmem
        simp only [List.mem_cons] at hmem
        rcases hmem with h | h | h
        · exact absurd (congrArg Prod.fst h) (by simp)
        · have := ((Prod.mk.injEq _ _ _ _).mp h).2
          simpa using this
        · exact absurd h (idle_loop_alive_no_postrun aliveOk rest _ t)
      · rw [List.countP_cons, List.countP_cons]
        have h0 : (notifier_idle_loop aliveOk rest DELAY_ALIVE
            (0 + DELAY_LDAP_CLOSE)).1.countP
            (fun e => e.1 == IdleEvent.postrunAll) = 0 := by
          rw [List.countP_eq_zero]
          rintro ⟨ev, t⟩ hmem hp
          rw [beq_iff_eq] at hp
          simp only at hp
          subst hp
          exact idle_loop_alive_no_postrun aliveOk rest _ t hmem
        rw [h0]
        decide
      · intro _
        exact List.mem_cons_of_mem _ (List.mem_cons_self _ _)
    | dataReady => simp [notifier_idle_loop]
    | recvFail => simp [notifier_idle_loop]
    | waitError => simp [notifier_idle_loop]

/-- Witness for the amended C9: a run whose first wait times out fires the
postrun event at idle time 15. -/
theorem claim_c9_witness :
    (IdleEvent.postrunAll, DELAY_LDAP_CLOSE) ∈
      (notifier_idle_loop true [WaitOutcome.timedOut, WaitOutcome.timedOut]
        DELAY_LDAP_CLOSE 0).1 :=
  (claim_c9_amended true [WaitOutcome.timedOut, WaitOutcome.timedOut]).2.2 rfl

/- ------------------------------------------------------------------ -/
/- Per-handler characterization of handler__update. -/

/-- Names whose handle hook runs in handler__update: exactly the singleton
of the handler's name when runsHook holds. -/
theorem handler__update_snd (env : HookEnv) (h : Handler)
    (np op : List String) (cmd : Char) (changes : Option (List String)) :
    (handler__update env h np op cmd changes).2.2 =
      if runsHook env h op changes then [h.name] else [] := by
  unfold handler__update runsHook handler_exec handler_ready
  by_cases h1 : handler_uptodate h op changes <;>
    by_cases h2 : env.filterMatch h <;>
      by_cases h3 : h.state &&& HANDLER_READY = HANDLER_READY <;>
        by_cases h4 : env.initOnly <;>
          by_cases h5 : env.hookOk h <;>
            simp [h1, h2, h3, h4, h5]

/-- Condition under which handler__update adds the handler's name to the new
entry's module-present set: either the up-to-date short-circuit fired, or
the hook ran and succeeded. -/
def addsName (env : HookEnv) (h : Handler) (op : List String)
    (changes : Option (List String)) : Bool :=
  handler_uptodate h op changes ||
    (env.filterMatch h && (handler_ready h || env.initOnly) && env.hookOk h)

/-- The module-present set handler__update hands on. -/
theorem handler__update_fst (env : HookEnv) (h : Handler)
    (np op : List String) (cmd : Char) (changes : Option (List String)) :
    (handler__update env h np op cmd changes).1 =
      if addsName env h op changes then cache_entry_module_add np h.name
      else np := by
  unfold handler__update addsName handler_exec handler_ready
  by_cases h1 : handler_uptodate h op changes <;>
    by_cases h2 : env.filterMatch h <;>
      by_cases h3 : h.state &&& HANDLER_READY = HANDLER_READY <;>
        by_cases h4 : env.initOnly <;>
          by_cases h5 : env.hookOk h <;>
            simp [h1, h2, h3, h4, h5]

/-- Trace of one dispatch pass: the names of the handlers that satisfy the
pass predicate and whose hook runs, in list order. -/
theorem handlers_pass_snd (env : HookEnv) (pred : Handler → Bool)
    (hs : List Handler) (np op : List String) (cmd : Char)
    (changes : Option (List String)) :
    (handlers_pass env pred hs np op cmd changes).2 =
      ((hs.filter pred).filter
        (fun h => runsHook env h op changes)).map Handler.name := by
  induction hs generalizing np with
  | nil => rfl
  | cons h t ih =>
    by_cases hp : pred h
    · by_cases hr : runsHook env h op changes
      · simp [handlers_pass, hp, hr, ih, handler__update_snd, List.filter_cons]
      · simp [handlers_pass, hp, hr, ih, handler__update_snd, List.filter_cons]
    · simp [handlers_pass, hp, ih, List.filter_cons]

/-- Membership in the module-present set a dispatch pass hands on. -/
theorem handlers_pass_fst_mem (env : HookEnv) (pred : Handler → Bool)
    (hs : List Handler) (np op : List String) (cmd : Char)
    (changes : Option (List String)) (x : String) :
    x ∈ (handlers_pass env pred hs np op cmd changes).1 ↔
      x ∈ np ∨ ∃ h, h ∈ hs ∧ pred h = true ∧
        addsName env h op changes = true ∧ h.name = x := by
  induction hs generalizing np with
  | nil => simp [handlers_pass]
  | cons h t ih =>
    by_cases hp : pred h
    · by_cases ha : addsName env h op changes
      · simp only [handlers_pass, if_pos hp, ih, handler__update_fst, if_pos ha,
          mem_module_add, List.mem_cons]
        constructor
        · rintro ((hx | rfl) | ⟨h2, hm, hpp, haa, rfl⟩)
          · exact Or.inl hx
          · exact Or.inr ⟨h, Or.inl rfl, hp, ha, rfl⟩
          · exact Or.inr ⟨h2, Or.inr hm, hpp, haa, rfl⟩
        · rintro (hx | ⟨h2, hm | hm, hpp, haa, rfl⟩)
          · exact Or.inl (Or.inl hx)
          · exact Or.inl (Or.inr (by rw [hm]))
          · exact Or.inr ⟨h2, hm, hpp, haa, rfl⟩
      · simp only [handlers_pass, if_pos hp, ih, handler__update_fst, if_neg ha,
          List.mem_cons]
        constructor
        · rintro (hx | ⟨h2, hm, hpp, haa, rfl⟩)
          · exact Or.inl hx
          · exact Or.inr ⟨h2, Or.inr hm, hpp, haa, rfl⟩
        · rintro (hx | ⟨h2, hm | hm, hpp, haa, rfl⟩)
          · exact Or.inl hx
          · rw [hm] at haa hpp
            exact absurd haa ha
          · exact Or.inr ⟨h2, hm, hpp, haa, rfl⟩
    · simp only [handlers_pass, if_neg hp, ih, List.mem_cons]
      constructor
      · rintro (hx | ⟨h2, hm, hpp, haa, rfl⟩)
        · exact Or.inl hx
        · exact Or.inr ⟨h2, Or.inr hm, hpp, haa, rfl⟩
      · rintro (hx | ⟨h2, hm | hm, hpp, haa, rfl⟩)
        · exact Or.inl hx
        · rw [hm] at hpp
          exact absurd hpp hp
        · exact Or.inr ⟨h2, hm, hpp, haa, rfl⟩

/- ------------------------------------------------------------------ -/
/- Claim C3. -/

/-- A failing hook makes addsName false. -/
theorem addsName_of_failure (env : HookEnv) (h : Handler) (op : List String)
    (changes : Option (List String))
    (hr : runsHook env h op changes = true) (hfail : env.hookOk h = false) :
    addsName env h op changes = false := by
  unfold runsHook at hr
  simp only [Bool.and_eq_true, Bool.not_eq_true'] at hr
  rcases hr with ⟨⟨hu, hf⟩, hg⟩
  unfold addsName
  simp [hu, hf, hg, hfail]

/-- Claim C3: an individual handler failure is contained: handlers_update
still reports success (rv = 0) so the cache write and the cursor advance
proceed, every handler whose hook is due still runs (the failing one
included), and the failing handler's name is withheld from the new entry's
module-present set. -/
theorem claim_c3_failure_contained (env : HookEnv) (hs : List Handler)
    (np op : List String) (cmd : Char) (changes : Option (List String))
    (hnd : (hs.map Handler.name).Nodup) :
    (handlers_update env hs np op cmd changes).2.1 = 0 ∧
    (∀ h ∈ hs, runsHook env h op changes = true →
      h.name ∈ (handlers_update env hs np op cmd changes).2.2) ∧
    (∀ h ∈ hs, runsHook env h op changes = true → env.hookOk h = false →
      h.name ∉ np →
      h.name ∉ (handlers_update env hs np op cmd changes).1) := by
  refine ⟨rfl, ?_, ?_⟩
  · intro h hh hr
    simp only [handlers_update]
    rw [handlers_pass_snd, handlers_pass_snd, List.mem_append]
    by_cases hrep : h.name = "replication"
    · exact Or.inl (List.mem_map_of_mem _
        (List.mem_filter.mpr ⟨List.mem_filter.mpr ⟨hh, by simp [hrep]⟩, hr⟩))
    · exact Or.inr (List.mem_map_of_mem _
        (List.mem_filter.mpr ⟨List.mem_filter.mpr ⟨hh, by simp [hrep]⟩, hr⟩))
  · intro h hh hr hfail hnp hmem
    have hadds := addsName_of_failure env h op changes hr hfail
    simp only [handlers_update] at hmem
    rw [handlers_pass_fst_mem] at hmem
    rcases hmem with hmem | ⟨h2, hm2, hp2, ha2, hname⟩
    · rw [handlers_pass_fst_mem] at hmem
      rcases hmem with hmem | ⟨h2, hm2, hp2, ha2, hname⟩
      · exact hnp hmem
      · have heq := List.inj_on_of_nodup_map hnd hm2 hh hname
        rw [heq] at ha2
        rw [hadds] at ha2
        exact absurd ha2 (by decide)
    · have heq := List.inj_on_of_nodup_map hnd hm2 hh hname
      rw [heq] at ha2
      rw [hadds] at ha2
      exact absurd ha2 (by decide)

/-- Witness for C3: a failing handler mid-list does not stop the following
handler and its name stays out of the new entry's module-present set. -/
theorem claim_c3_witness :
    (handlers_update
      ⟨false, fun _ => true, fun h => h.name != "bad"⟩
      [⟨"bad", 1, none, false, false, 2⟩, ⟨"good", 2, none, false, false, 2⟩]
      [] [] 'm' (some ["cn"])).2.1 = 0 ∧
    "good" ∈ (handlers_update
      ⟨false, fun _ => true, fun h => h.name != "bad"⟩
      [⟨"bad", 1, none, false, false, 2⟩, ⟨"good", 2, none, false, false, 2⟩]
      [] [] 'm' (some ["cn"])).2.2 ∧
    "bad" ∉ (handlers_update
      ⟨false, fun _ => true, fun h => h.name != "bad"⟩
      [⟨"bad", 1, none, false, false, 2⟩, ⟨"good", 2, none, false, false, 2⟩]
      [] [] 'm' (some ["cn"])).1 := by
  refine ⟨(claim_c3_failure_contained _ _ _ _ _ _ (by decide)).1, ?_, ?_⟩
  · exact (claim_c3_failure_contained _ _ [] [] 'm' (some ["cn"])
      (by decide)).2.1 ⟨"good", 2, none, false, false, 2⟩ (by decide) (by decide)
  · exact (claim_c3_failure_contained _ _ [] [] 'm' (some ["cn"])
      (by decide)).2.2 ⟨"bad", 1, none, false, false, 2⟩ (by decide) (by decide)
      (by decide) (by decide)

/- ------------------------------------------------------------------ -/
/- Claim C2. -/

/-- Removing one name from the module-present set leaves every other name's
presence unchanged. -/
theorem module_present_remove_ne (s : List String) (n m : String)
    (h : m ≠ n) :
    cache_entry_module_present (cache_entry_module_remove s n) m =
      cache_entry_module_present s m := by
  cases hb : cache_entry_module_present s m
  · cases hb2 : cache_entry_module_present (cache_entry_module_remove s n) m
    · rfl
    · have := (module_present_iff _ _).mp hb2
      have h2 := ((mem_module_remove s n m).mp this).1
      rw [(module_present_iff _ _).mpr h2] at hb
      exact absurd hb (by decide)
  · exact (module_present_iff _ _).mpr
      ((mem_module_remove s n m).mpr ⟨(module_present_iff _ _).mp hb, h⟩)

/-- Gate of handlers_delete (handler.c:843): a handler runs on a delete iff
its name is in the old entry's module-present set, its handle_every_delete
flag is set, or it is named replication. -/
def delete_condition (old : List String) (h : Handler) : Bool :=
  cache_entry_module_present old h.name || h.handle_every_delete ||
    (h.name == "replication")

/-- The hook trace of handler_exec mentions only the handler's own name. -/
theorem handler_exec_snd_sub (env : HookEnv) (h : Handler) (cmd : Char)
    (x : String) (hx : x ∈ (handler_exec env h cmd).2) : x = h.name := by
  unfold handler_exec at hx
  by_cases hg : h.state &&& HANDLER_READY ≠ HANDLER_READY ∧ env.initOnly = false
  · rw [if_pos hg] at hx
    simp at hx
  · rw [if_neg hg] at hx
    by_cases hk : env.hookOk h
    · rw [if_pos hk] at hx
      simpa using hx
    · rw [if_neg hk] at hx
      simpa using hx

/-- When the READY gate passes, handler_exec runs the hook and returns 0
exactly on success. -/
theorem handler_exec_of_ready (env : HookEnv) (h : Handler) (cmd : Char)
    (hg : handler_ready h = true ∨ env.initOnly = true) :
    handler_exec env h cmd =
      ((if env.hookOk h then 0 else 1 : Int), [h.name]) := by
  unfold handler_exec
  rw [if_neg]
  · by_cases hk : env.hookOk h <;> simp [hk]
  · rintro ⟨hne, hio⟩
    rcases hg with hg | hg
    · exact hne (by unfold handler_ready at hg; exact beq_iff_eq.mp hg)
    · rw [hg] at hio
      exact absurd hio (by decide)

/-- Every name in the handlers_delete hook trace is the name of one of the
handlers in the list. -/
theorem handlers_delete_trace_names (env : HookEnv) (cmd : Char) :
    ∀ (hs : List Handler) (s : List String) (x : String),
      x ∈ (handlers_delete env hs s cmd).2.2 → ∃ h, h ∈ hs ∧ x = h.name := by
  intro hs
  induction hs with
  | nil =>
    intro s x hx
    simp [handlers_delete] at hx
  | cons h t ih =>
    intro s x hx
    simp only [handlers_delete] at hx
    by_cases hskip : (!cache_entry_module_present s h.name) = true ∧
        h.name ≠ "replication" ∧ (!h.handle_every_delete) = true
    · rw [if_pos hskip] at hx
      obtain ⟨h2, hm, rfl⟩ := ih s x hx
      exact ⟨h2, List.mem_cons_of_mem _ hm, rfl⟩
    · rw [if_neg hskip] at hx
      by_cases hz : (handler_exec env h cmd).1 = 0
      · rw [if_pos hz] at hx
        rcases List.mem_append.mp hx with hx | hx
        · exact ⟨h, List.mem_cons_self _ _, handler_exec_snd_sub env h cmd x hx⟩
        · obtain ⟨h2, hm, rfl⟩ := ih _ x hx
          exact ⟨h2, List.mem_cons_of_mem _ hm, rfl⟩
      · rw [if_neg hz] at hx
        rcases List.mem_append.mp hx with hx | hx
        · exact ⟨h, List.mem_cons_self _ _, handler_exec_snd_sub env h cmd x hx⟩
        · obtain ⟨h2, hm, rfl⟩ := ih s x hx
          exact ⟨h2, List.mem_cons_of_mem _ hm, rfl⟩

/-- Full characterization of handlers_delete, generalized over a working set
s that agrees with the original module-present set old on the names of the
remaining handlers: the result set only shrinks, a handler's hook runs iff
the delete gate holds for it, and a successful handler's name is removed. -/
theorem handlers_delete_spec (env : HookEnv) (cmd : Char) :
    ∀ (hs : List Handler) (s old : List String),
      (∀ h ∈ hs, handler_ready h = true ∨ env.initOnly = true) →
      ((hs.map Handler.name).Nodup) →
      (∀ h ∈ hs, cache_entry_module_present s h.name =
        cache_entry_module_present old h.name) →
      (∀ x, x ∈ (handlers_delete env hs s cmd).1 → x ∈ s) ∧
      (∀ h ∈ hs, (h.name ∈ (handlers_delete env hs s cmd).2.2 ↔
        delete_condition old h = true)) ∧
      (∀ h ∈ hs, delete_condition old h = true → env.hookOk h = true →
        h.name ∉ (handlers_delete env hs s cmd).1) := by
  intro hs
  induction hs with
  | nil =>
    intro s old _ _ _
    refine ⟨fun x hx => ?_, fun h hh => absurd hh (List.not_mem_nil h),
      fun h hh => absurd hh (List.not_mem_nil h)⟩
    simpa [handlers_delete] using hx
  | cons h t ih =>
    intro s old hready hnd hagree
    rw [List.map_cons, List.nodup_cons] at hnd
    obtain ⟨hnotin, hnd2⟩ := hnd
    have hagree0 := hagree h (List.mem_cons_self _ _)
    have hready2 : ∀ h2 ∈ t, handler_ready h2 = true ∨ env.initOnly = true :=
      fun h2 hm => hready h2 (List.mem_cons_of_mem _ hm)
    have hagree2 : ∀ h2 ∈ t, cache_entry_module_present s h2.name =
        cache_entry_module_present old h2.name :=
      fun h2 hm => hagree h2 (List.mem_cons_of_mem _ hm)
    have hname2 : ∀ h2 ∈ t, h2.name ≠ h.name := by
      intro h2 hm heq
      exact hnotin (heq ▸ List.mem_map_of_mem Handler.name hm)
    by_cases hskip : (!cache_entry_module_present s h.name) = true ∧
        h.name ≠ "replication" ∧ (!h.handle_every_delete) = true
    · -- the handler is skipped; the gate is false
      have hdc : delete_condition old h = false := by
        obtain ⟨hp, hr, he⟩ := hskip
        rw [Bool.not_eq_true'] at hp he
        rw [hagree0] at hp
        unfold delete_condition
        simp [hp, he, hr]
      simp only [handlers_delete, if_pos hskip]
      obtain ⟨iha, ihb, ihc⟩ := ih s old hready2 hnd2 hagree2
      refine ⟨iha, ?_, ?_⟩
      · intro h2 hm
        rcases List.mem_cons.mp hm with rfl | hm2
        · refine iff_of_false (fun hmem => ?_) (by simp [hdc])
          obtain ⟨h3, hm3, heq3⟩ := handlers_delete_trace_names env cmd t s _ hmem
          exact hname2 h3 hm3 heq3.symm
        · exact ihb h2 hm2
      · intro h2 hm
        rcases List.mem_cons.mp hm with rfl | hm2
        · intro hc
          rw [hdc] at hc
          exact absurd hc (by decide)
        · exact ihc h2 hm2
    · -- the handler executes
      have hdc : delete_condition old h = true := by
        unfold delete_condition
        rw [← hagree0]
        by_cases hp : cache_entry_module_present s h.name = true
        · simp [hp]
        · by_cases he : h.handle_every_delete = true
          · simp [he]
          · by_cases hr : h.name = "replication"
            · simp [hr]
            · rw [Bool.not_eq_true] at hp he
              exact absurd ⟨by simp [hp], hr, by simp [he]⟩ hskip
      have hexec := handler_exec_of_ready env h cmd (hready h (List.mem_cons_self _ _))
      simp only [handlers_delete, if_neg hskip, hexec]
      by_cases hok : env.hookOk h = true
      · rw [if_pos (by simp [hok])]
        obtain ⟨iha, ihb, ihc⟩ := ih (cache_entry_module_remove s h.name) old
          hready2 hnd2
          (fun h2 hm => by
            rw [module_present_remove_ne s h.name h2.name (hname2 h2 hm)]
            exact hagree2 h2 hm)
        refine ⟨?_, ?_, ?_⟩
        · intro x hx
          exact ((mem_module_remove s h.name x).mp (iha x hx)).1
        · intro h2 hm
          rcases List.mem_cons.mp hm with rfl | hm2
          · exact iff_of_true (List.mem_cons_self _ _) hdc
          · rw [List.cons_append, List.nil_append, List.mem_cons]
            rw [or_iff_right (hname2 h2 hm2)]
            exact ihb h2 hm2
        · intro h2 hm
          rcases List.mem_cons.mp hm with rfl | hm2
          · intro _ _ hmem
            exact not_mem_module_remove s h2.name (iha h2.name hmem)
          · exact ihc h2 hm2
      · rw [if_neg (by simp [hok])]
        obtain ⟨iha, ihb, ihc⟩ := ih s old hready2 hnd2 hagree2
        refine ⟨iha, ?_, ?_⟩
        · intro h2 hm
          rcases List.mem_cons.mp hm with rfl | hm2
          · exact iff_of_true (by
              rw [List.cons_append, List.nil_append]
              exact List.mem_cons_self _ _) hdc
          · rw [List.cons_append, List.nil_append, List.mem_cons]
            rw [or_iff_right (hname2 h2 hm2)]
            exact ihb h2 hm2
        · intro h2 hm
          rcases List.mem_cons.mp hm with rfl | hm2
          · intro _ hk
            exact absurd hk hok
          · exact ihc h2 hm2

/-- Counterexample to C2 as stated: a handler whose persisted state lacks
the READY bit is in the old entry's module-present set, yet on a DELETE its
handle hook is not invoked (the trace is empty); handler_exec rejects it
before the hook, so the claimed "invoked iff present or handle_every_delete
or replication" fails in the forward direction. -/
theorem claim_c2_counterexample :
    cache_entry_module_present ["foo"] "foo" = true ∧
    (handlers_delete ⟨false, fun _ => true, fun _ => true⟩
      [⟨"foo", 0, none, false, false, 0⟩] ["foo"] 'd').2.2 = [] := by decide

/-- Claim C2 (amended): on a DELETE transaction, provided every handler
passes the READY gate (its state has the READY bit or the listener is in
initialize-only mode) and handler names are distinct, a handler's handle
hook is invoked iff its name is in the old entry's module-present set, its
handle_every_delete flag is set, or it is named replication; and each
successfully invoked handler's name is absent from the module-present set
handlers_delete returns to its caller, which performs the cache write
afterwards. -/
theorem claim_c2_delete_gate (env : HookEnv) (hs : List Handler)
    (old : List String) (cmd : Char)
    (hready : ∀ h ∈ hs, handler_ready h = true ∨ env.initOnly = true)
    (hnd : (hs.map Handler.name).Nodup) :
    (∀ h ∈ hs, (h.name ∈ (handlers_delete env hs old cmd).2.2 ↔
      (h.name ∈ old ∨ h.handle_every_delete = true ∨
        h.name = "replication"))) ∧
    (∀ h ∈ hs, (h.name ∈ old ∨ h.handle_every_delete = true ∨
        h.name = "replication") → env.hookOk h = true →
      h.name ∉ (handlers_delete env hs old cmd).1) := by
  obtain ⟨_, hb, hc⟩ := handlers_delete_spec env cmd hs old old hready hnd
    (fun _ _ => rfl)
  have hcond : ∀ h : Handler, (delete_condition old h = true ↔
      (h.name ∈ old ∨ h.handle_every_delete = true ∨
        h.name = "replication")) := by
    intro h
    unfold delete_condition
    rw [Bool.or_eq_true, Bool.or_eq_true, module_present_iff, beq_iff_eq]
    tauto
  refine ⟨?_, ?_⟩
  · intro h hm
    rw [← hcond h]
    exact hb h hm
  · intro h hm hdc
    rw [← hcond h] at hdc
    exact hc h hm hdc

/-- Witness for the amended C2: a ready handler in the module-present set is
invoked on delete and its name is removed from the returned set. -/
theorem claim_c2_witness :
    ("sync" ∈ (handlers_delete ⟨false, fun _ => true, fun _ => true⟩
      [⟨"sync", 0, none, false, false, 2⟩] ["sync"] 'd').2.2) ∧
    ("sync" ∉ (handlers_delete ⟨false, fun _ => true, fun _ => true⟩
      [⟨"sync", 0, none, false, false, 2⟩] ["sync"] 'd').1) := by
  refine ⟨?_, ?_⟩
  · exact ((claim_c2_delete_gate ⟨false, fun _ => true, fun _ => true⟩
      [⟨"sync", 0, none, false, false, 2⟩] ["sync"] 'd'
      (by decide) (by decide)).1 ⟨"sync", 0, none, false, false, 2⟩
      (by decide)).mpr (Or.inl (by decide))
  · exact (claim_c2_delete_gate ⟨false, fun _ => true, fun _ => true⟩
      [⟨"sync", 0, none, false, false, 2⟩] ["sync"] 'd'
      (by decide) (by decide)).2 ⟨"sync", 0, none, false, false, 2⟩
      (by decide) (Or.inl (by decide)) rfl

/- ------------------------------------------------------------------ -/
/- Claim C4. -/

/-- On a delete, a handler named replication is never skipped: whenever its
READY gate passes, its hook is invoked. -/
theorem handlers_delete_runs_replication (env : HookEnv) (cmd : Char) :
    ∀ (hs : List Handler) (s : List String) (h : Handler), h ∈ hs →
      h.name = "replication" →
      (handler_ready h = true ∨ env.initOnly = true) →
      h.name ∈ (handlers_delete env hs s cmd).2.2 := by
  intro hs
  induction hs with
  | nil =>
    intro s h hm
    exact absurd hm (List.not_mem_nil h)
  | cons h2 t ih =>
    intro s h hm hrepl hg
    simp only [handlers_delete]
    rcases List.mem_cons.mp hm with rfl | hm2
    · rw [if_neg (fun hskip => hskip.2.1 hrepl)]
      have hexec := handler_exec_of_ready env h cmd hg
      rw [hexec]
      by_cases hok : env.hookOk h = true
      · rw [if_pos (by simp [hok])]
        exact List.mem_append.mpr (Or.inl (List.mem_cons_self _ _))
      · rw [if_neg (by simp [hok])]
        exact List.mem_append.mpr (Or.inl (List.mem_cons_self _ _))
    · by_cases hskip : (!cache_entry_module_present s h2.name) = true ∧
          h2.name ≠ "replication" ∧ (!h2.handle_every_delete) = true
      · rw [if_pos hskip]
        exact ih s h hm2 hrepl hg
      · rw [if_neg hskip]
        by_cases hz : (handler_exec env h2 cmd).1 = 0
        · rw [if_pos hz]
          exact List.mem_append.mpr (Or.inr (ih _ h hm2 hrepl hg))
        · rw [if_neg hz]
          exact List.mem_append.mpr (Or.inr (ih s h hm2 hrepl hg))

/-- Counterexample to C4 as stated: on a DELETE the handlers run in priority
order, so a handler with a lower priority than replication runs before it
(the trace below invokes "aaa" first); and in an update the replication
handler is skipped like any other when its filter does not match (the trace
below is empty), so it is not exempt from the filter-match skip. -/
theorem claim_c4_counterexample :
    ((handlers_delete ⟨false, fun _ => true, fun _ => true⟩
      (load_handlers [⟨"replication", 0, none, false, false, 2⟩,
        ⟨"aaa", -1, none, true, false, 2⟩])
      ["aaa", "replication"] 'd').2.2 = ["aaa", "replication"]) ∧
    ((handlers_update ⟨false, fun h2 => h2.name != "replication", fun _ => true⟩
      [⟨"replication", 0, none, false, false, 2⟩] [] [] 'm'
      (some ["x"])).2.2 = []) := by decide

/-- Claim C4 (amended): in handlers_update every hook invocation of a
handler named replication precedes every other invocation (the trace splits
into a replication-only prefix and a replication-free suffix), and
replication is exempt from the module-present/changed-attributes
short-circuit: whenever its filter matches and its READY gate passes its
hook runs.  It remains subject to the filter match, and on a DELETE it is
always invoked but in priority-list position, not necessarily first. -/
theorem claim_c4_replication_order (env : HookEnv) (hs : List Handler)
    (np op s : List String) (cmd dcmd : Char)
    (changes : Option (List String)) (h : Handler) :
    (∃ t1 t2, (handlers_update env hs np op cmd changes).2.2 = t1 ++ t2 ∧
      (∀ n ∈ t1, n = "replication") ∧ (∀ n ∈ t2, n ≠ "replication")) ∧
    (h.name = "replication" → env.filterMatch h = true →
      (handler_ready h = true ∨ env.initOnly = true) →
      (handler__update env h np op cmd changes).2.2 = [h.name]) ∧
    (h ∈ hs → h.name = "replication" →
      (handler_ready h = true ∨ env.initOnly = true) →
      h.name ∈ (handlers_delete env hs s dcmd).2.2) := by
  refine ⟨?_, ?_, ?_⟩
  · refine ⟨(handlers_pass env (fun h2 => h2.name == "replication") hs
      np op cmd changes).2, _, rfl, ?_, ?_⟩
    · intro n hn
      rw [handlers_pass_snd] at hn
      obtain ⟨h2, hm2, rfl⟩ := List.mem_map.mp hn
      have := (List.mem_filter.mp (List.mem_filter.mp hm2).1).2
      exact beq_iff_eq.mp this
    · intro n hn
      rw [handlers_pass_snd] at hn
      obtain ⟨h2, hm2, rfl⟩ := List.mem_map.mp hn
      have := (List.mem_filter.mp (List.mem_filter.mp hm2).1).2
      intro heq
      rw [bne_iff_ne] at this
      exact this heq
  · intro hrepl hf hg
    have hu : handler_uptodate h op changes = false := by
      unfold handler_uptodate
      rw [if_neg]
      rintro ⟨hne, _⟩
      exact hne hrepl
    rw [handler__update_snd, if_pos]
    unfold runsHook
    rcases hg with hg | hg <;> simp [hu, hf, hg]
  · exact fun hm hrepl hg =>
      handlers_delete_runs_replication env dcmd hs s h hm hrepl hg

/-- Witness for the amended C4: the replication handler runs in an update
even though its name is in the module-present set and nothing changed. -/
theorem claim_c4_witness :
    (handler__update ⟨false, fun _ => true, fun _ => true⟩
      ⟨"replication", 0, none, false, false, 2⟩ [] ["replication"] 'm'
      (some [])).2.2 = ["replication"] :=
  (claim_c4_replication_order ⟨false, fun _ => true, fun _ => true⟩ [] []
    ["replication"] [] 'm' 'd' (some [])
    ⟨"replication", 0, none, false, false, 2⟩).2.1 rfl rfl (Or.inl (by decide))

/- ------------------------------------------------------------------ -/
/- Claim C5: ordering properties of insert_handler and load_handlers. -/

/-- insert_handler splits the list at the first handler of strictly larger
priority: the prefix keeps every handler of priority ≤ the new one. -/
theorem insert_handler_split (hs : List Handler) (a : Handler) :
    ∃ l1 l2, hs = l1 ++ l2 ∧ insert_handler hs a = l1 ++ a :: l2 ∧
      (∀ x ∈ l1, x.priority ≤ a.priority) ∧
      (∀ y t2, l2 = y :: t2 → ¬ y.priority ≤ a.priority) := by
  induction hs with
  | nil =>
    exact ⟨[], [], rfl, rfl, fun x hx => absurd hx (List.not_mem_nil x),
      fun y t2 h => by cases h⟩
  | cons h t ih =>
    by_cases hle : h.priority ≤ a.priority
    · obtain ⟨l1, l2, he, hi, hall, hhead⟩ := ih
      refine ⟨h :: l1, l2, by rw [List.cons_append, ← he], ?_, ?_, hhead⟩
      · simp only [insert_handler, if_pos hle, hi, List.cons_append]
      · intro x hx
        rcases List.mem_cons.mp hx with rfl | hx2
        · exact hle
        · exact hall x hx2
    · refine ⟨[], h :: t, rfl, ?_, fun x hx => absurd hx (List.not_mem_nil x), ?_⟩
      · simp only [insert_handler, if_neg hle, List.nil_append]
      · intro y t2 hy
        rw [List.cons.injEq] at hy
        rw [← hy.1]
        exact hle

/-- Inserting preserves every sublist of the original handler list. -/
theorem insert_handler_sublist (hs : List Handler) (a : Handler)
    (s : List Handler) (h : List.Sublist s hs) :
    List.Sublist s (insert_handler hs a) := by
  obtain ⟨l1, l2, he, hi, -, -⟩ := insert_handler_split hs a
  rw [hi]
  rw [he] at h
  exact h.trans ((List.sublist_cons_self a l2).append_left l1)

/-- Membership after insert_handler. -/
theorem insert_handler_mem (hs : List Handler) (a x : Handler) :
    x ∈ insert_handler hs a ↔ x ∈ hs ∨ x = a := by
  obtain ⟨l1, l2, he, hi, -, -⟩ := insert_handler_split hs a
  rw [hi, he]
  simp only [List.mem_append, List.mem_cons]
  tauto

/-- insert_handler keeps the list sorted by priority. -/
theorem insert_handler_sorted (hs : List Handler) (a : Handler)
    (h : hs.Pairwise (fun x y => x.priority ≤ y.priority)) :
    (insert_handler hs a).Pairwise (fun x y => x.priority ≤ y.priority) := by
  obtain ⟨l1, l2, he, hi, hall, hhead⟩ := insert_handler_split hs a
  rw [hi]
  rw [he, List.pairwise_append] at h
  obtain ⟨hp1, hp2, hcross⟩ := h
  rw [List.pairwise_append]
  refine ⟨hp1, ?_, ?_⟩
  · rw [List.pairwise_cons]
    refine ⟨?_, hp2⟩
    intro y hy
    cases l2 with
    | nil => exact absurd hy (List.not_mem_nil y)
    | cons y0 t2 =>
      have h0 : a.priority ≤ y0.priority :=
        le_of_lt (lt_of_not_le (hhead y0 t2 rfl))
      rcases List.mem_cons.mp hy with rfl | hy2
      · exact h0
      · exact le_trans h0 (List.rel_of_pairwise_cons hp2 hy2)
  · intro x hx y hy
    rcases List.mem_cons.mp hy with rfl | hy2
    · exact hall x hx
    · exact hcross x hx y hy2

/-- In a sorted list, a handler of priority ≤ the inserted one ends up in
front of it. -/
theorem insert_handler_after (hs : List Handler) (a x : Handler)
    (hsorted : hs.Pairwise (fun u v => u.priority ≤ v.priority))
    (hx : x ∈ hs) (hle : x.priority ≤ a.priority) :
    List.Sublist [x, a] (insert_handler hs a) := by
  obtain ⟨l1, l2, he, hi, hall, hhead⟩ := insert_handler_split hs a
  rw [hi]
  rw [he] at hx hsorted
  have hx1 : x ∈ l1 := by
    rcases List.mem_append.mp hx with hx1 | hx2
    · exact hx1
    · exfalso
      cases l2 with
      | nil => exact List.not_mem_nil x hx2
      | cons y0 t2 =>
        have hy0 : ¬ y0.priority ≤ a.priority := hhead y0 t2 rfl
        rcases List.mem_cons.mp hx2 with rfl | hx3
        · exact hy0 hle
        · have hp2 := (List.pairwise_append.mp hsorted).2.1
          exact hy0 (le_trans (List.rel_of_pairwise_cons hp2 hx3) hle)
  exact (List.singleton_sublist.mpr hx1).append
    (List.Sublist.cons₂ a (List.nil_sublist l2))

/-- insert_handler is a permutation of consing. -/
theorem insert_handler_perm (hs : List Handler) (a : Handler) :
    List.Perm (insert_handler hs a) (a :: hs) := by
  obtain ⟨l1, l2, he, hi, -, -⟩ := insert_handler_split hs a
  rw [hi, he]
  exact List.perm_middle

/-- Folding insert_handler permutes the accumulated and loaded handlers. -/
theorem foldl_insert_perm (loads : List Handler) :
    ∀ acc, List.Perm (List.foldl insert_handler acc loads) (acc ++ loads) := by
  induction loads with
  | nil => intro acc; simp
  | cons c rest ih =>
    intro acc
    rw [List.foldl_cons]
    exact ((ih (insert_handler acc c)).trans
      (((insert_handler_perm acc c).append_right rest).trans
        List.perm_middle.symm))

/-- load_handlers is a permutation of the load order. -/
theorem load_handlers_perm (loads : List Handler) :
    List.Perm (load_handlers loads) loads := by
  have := foldl_insert_perm loads []
  rw [List.nil_append] at this
  exact this

/-- Master invariant of load_handlers: the built list is priority-sorted,
pair sublists of the accumulator survive, and both an accumulated handler
before a loaded one of no smaller priority and a load-order pair of
non-decreasing priority stay in order. -/
theorem load_fold_spec (loads : List Handler) :
    ∀ acc, acc.Pairwise (fun x y => x.priority ≤ y.priority) →
      (List.foldl insert_handler acc loads).Pairwise
        (fun x y => x.priority ≤ y.priority) ∧
      (∀ a b, List.Sublist [a, b] acc →
        List.Sublist [a, b] (List.foldl insert_handler acc loads)) ∧
      (∀ a b, a ∈ acc → b ∈ loads → a.priority ≤ b.priority →
        List.Sublist [a, b] (List.foldl insert_handler acc loads)) ∧
      (∀ a b, List.Sublist [a, b] loads → a.priority ≤ b.priority →
        List.Sublist [a, b] (List.foldl insert_handler acc loads)) := by
  induction loads with
  | nil =>
    intro acc hacc
    refine ⟨hacc, fun a b h => h, ?_, ?_⟩
    · intro a b _ hb
      exact absurd hb (List.not_mem_nil b)
    · intro a b h _
      exact absurd (h.subset (List.mem_cons_of_mem a (List.mem_cons_self b [])))
        (List.not_mem_nil b)
  | cons c rest ih =>
    intro acc hacc
    rw [List.foldl_cons]
    obtain ⟨ih1, ih2, ih3, ih4⟩ :=
      ih (insert_handler acc c) (insert_handler_sorted acc c hacc)
    refine ⟨ih1, ?_, ?_, ?_⟩
    · intro a b h
      exact ih2 a b (insert_handler_sublist acc c [a, b] h)
    · intro a b ha hb hle
      rcases List.mem_cons.mp hb with rfl | hb2
      · exact ih2 a b (insert_handler_after acc b a hacc ha hle)
      · exact ih3 a b ((insert_handler_mem acc c a).mpr (Or.inl ha)) hb2 hle
    · intro a b h hle
      cases h with
      | cons _ h2 =>
        exact ih4 a b h2 hle
      | cons₂ _ h2 =>
        exact ih3 c b ((insert_handler_mem acc c c).mpr (Or.inr rfl))
          (List.singleton_sublist.mp h2) hle

/-- Two distinct members of a list form a pair sublist one way or the
other. -/
theorem pair_sublist_or (l : List Handler) (a b : Handler) (ha : a ∈ l)
    (hb : b ∈ l) (hne : a ≠ b) :
    List.Sublist [a, b] l ∨ List.Sublist [b, a] l := by
  induction l with
  | nil => exact absurd ha (List.not_mem_nil a)
  | cons c t ih =>
    rcases List.mem_cons.mp ha with rfl | hat
    · rcases List.mem_cons.mp hb with rfl | hbt
      · exact absurd rfl hne
      · exact Or.inl (List.Sublist.cons₂ a (List.singleton_sublist.mpr hbt))
    · rcases List.mem_cons.mp hb with rfl | hbt
      · exact Or.inr (List.Sublist.cons₂ b (List.singleton_sublist.mpr hat))
      · rcases ih hat hbt with h | h
        · exact Or.inl (List.Sublist.cons c h)
        · exact Or.inr (List.Sublist.cons c h)

/-- In a duplicate-free list, a pair sublist fixes the order of indices. -/
theorem indexOf_lt_of_pair_sublist {α : Type} [DecidableEq α] :
    ∀ (l : List α) (x y : α), List.Sublist [x, y] l → l.Nodup →
      l.indexOf x < l.indexOf y := by
  intro l
  induction l with
  | nil =>
    intro x y h
    cases h
  | cons c t ih =>
    intro x y h hnd
    rw [List.nodup_cons] at hnd
    obtain ⟨hcnot, hndt⟩ := hnd
    cases h with
    | cons _ h2 =>
      have hx : x ∈ t := h2.subset (List.mem_cons_self x [y])
      have hy : y ∈ t := h2.subset (List.mem_cons_of_mem x (List.mem_cons_self y []))
      have hxc : c ≠ x := fun he => hcnot (he ▸ hx)
      have hyc : c ≠ y := fun he => hcnot (he ▸ hy)
      rw [List.indexOf_cons_ne t hxc, List.indexOf_cons_ne t hyc]
      exact Nat.succ_lt_succ (ih x y h2 hndt)
    | cons₂ _ h2 =>
      have hy : y ∈ t := List.singleton_sublist.mp h2
      have hyc : c ≠ y := fun he => hcnot (he ▸ hy)
      rw [List.indexOf_cons_self, List.indexOf_cons_ne t hyc]
      exact Nat.succ_pos _

/-- Counterexample to C5 as stated: a handler of priority 1 is invoked after
the handler named replication of priority 5, because handlers_update runs
the replication pass first regardless of priority. -/
theorem claim_c5_counterexample :
    ((1 : Rat) < 5) ∧
    ((handlers_update ⟨false, fun _ => true, fun _ => true⟩
      (load_handlers [⟨"a1", 1, none, false, false, 2⟩,
        ⟨"replication", 5, none, false, false, 2⟩]) [] [] 'm'
      (some ["x"])).2.2 = ["replication", "a1"]) := by
  constructor
  · decide
  · decide

/-- Claim C5 (amended): among handlers not named replication, the handler
list built by insert_handler makes handlers_update invoke hooks in
ascending priority, with load order breaking ties: if h1 precedes h2 in
load order with no larger priority, or h1 has strictly smaller priority,
and both hooks run, then h1's invocation comes first.  The handler named
replication is excluded: it always runs in the first pass. -/
theorem claim_c5_priority_order (env : HookEnv) (loads : List Handler)
    (np op : List String) (cmd : Char) (changes : Option (List String))
    (h1 h2 : Handler)
    (hnd : (loads.map Handler.name).Nodup)
    (h1r : h1.name ≠ "replication") (h2r : h2.name ≠ "replication")
    (horder : (List.Sublist [h1, h2] loads ∧ h1.priority ≤ h2.priority) ∨
      (h1 ∈ loads ∧ h2 ∈ loads ∧ h1.priority < h2.priority))
    (hm1 : h1.name ∈
      (handlers_update env (load_handlers loads) np op cmd changes).2.2)
    (hm2 : h2.name ∈
      (handlers_update env (load_handlers loads) np op cmd changes).2.2) :
    List.indexOf h1.name
        ((handlers_update env (load_handlers loads) np op cmd changes).2.2) <
      List.indexOf h2.name
        ((handlers_update env (load_handlers loads) np op cmd changes).2.2) := by
  have hperm := load_handlers_perm loads
  have hnds : ((load_handlers loads).map Handler.name).Nodup :=
    ((hperm.map Handler.name).nodup_iff).mpr hnd
  obtain ⟨hsorted, -, -, hstable⟩ := load_fold_spec loads [] List.Pairwise.nil
  have hne : h1 ≠ h2 := by
    intro he
    rcases horder with ⟨hsl, -⟩ | ⟨-, -, hlt⟩
    · have hd : ([h1.name, h2.name] : List String).Nodup :=
        hnd.sublist (hsl.map Handler.name)
      rw [he] at hd
      simp at hd
    · rw [he] at hlt
      exact absurd hlt (lt_irrefl _)
  have hsub : List.Sublist [h1, h2] (load_handlers loads) := by
    rcases horder with ⟨hsl, hle⟩ | ⟨hmem1, hmem2, hlt⟩
    · exact hstable h1 h2 hsl hle
    · have hm1s : h1 ∈ load_handlers loads := hperm.mem_iff.mpr hmem1
      have hm2s : h2 ∈ load_handlers loads := hperm.mem_iff.mpr hmem2
      rcases pair_sublist_or _ h1 h2 hm1s hm2s hne with h | h
      · exact h
      · exfalso
        have hp : List.Pairwise (fun x y => x.priority ≤ y.priority)
            [h2, h1] := hsorted.sublist h
        have := (List.pairwise_cons.mp hp).1 h1 (List.mem_cons_self _ _)
        exact absurd hlt (not_lt.mpr this)
  have h1hs : h1 ∈ load_handlers loads :=
    hsub.subset (List.mem_cons_self h1 [h2])
  have h2hs : h2 ∈ load_handlers loads :=
    hsub.subset (List.mem_cons_of_mem h1 (List.mem_cons_self h2 []))
  have hp1 : (h1.name != "replication") = true := bne_iff_ne.mpr h1r
  have hp2 : (h2.name != "replication") = true := bne_iff_ne.mpr h2r
  have hrun : ∀ h : Handler, h.name ≠ "replication" →
      h ∈ load_handlers loads →
      h.name ∈ (handlers_update env (load_handlers loads) np op cmd
        changes).2.2 →
      runsHook env h op changes = true := by
    intro h hr hhs hm
    simp only [handlers_update] at hm
    rcases List.mem_append.mp hm with hmem | hmem
    · exfalso
      rw [handlers_pass_snd] at hmem
      obtain ⟨hx, hxm, hxe⟩ := List.mem_map.mp hmem
      have hb := (List.mem_filter.mp (List.mem_filter.mp hxm).1).2
      exact hr (hxe ▸ beq_iff_eq.mp hb)
    · rw [handlers_pass_snd] at hmem
      obtain ⟨hx, hxm, hxe⟩ := List.mem_map.mp hmem
      have hxhs : hx ∈ load_handlers loads :=
        (List.mem_filter.mp (List.mem_filter.mp hxm).1).1
      have hxrun := (List.mem_filter.mp hxm).2
      have hxeq : hx = h := List.inj_on_of_nodup_map hnds hxhs hhs hxe
      rw [← hxeq]
      exact hxrun
  have hrun1 := hrun h1 h1r h1hs hm1
  have hrun2 := hrun h2 h2r h2hs hm2
  have hsub2 : List.Sublist [h1, h2]
      ((load_handlers loads).filter (fun h => h.name != "replication")) := by
    have hf := hsub.filter (fun h => h.name != "replication")
    simp only [List.filter_cons, List.filter_nil, hp1, hp2, if_true] at hf
    exact hf
  have hpair2 : List.Sublist [h1, h2]
      (((load_handlers loads).filter (fun h => h.name != "replication")).filter
        (fun h => runsHook env h op changes)) := by
    have hf := hsub2.filter (fun h => runsHook env h op changes)
    simp only [List.filter_cons, List.filter_nil, hrun1, hrun2, if_true] at hf
    exact hf
  have hmap : List.Sublist [h1.name, h2.name]
      ((((load_handlers loads).filter
        (fun h => h.name != "replication")).filter
        (fun h => runsHook env h op changes)).map Handler.name) := by
    have := hpair2.map Handler.name
    simpa using this
  have ht2nodup : (((((load_handlers loads).filter
      (fun h => h.name != "replication")).filter
      (fun h => runsHook env h op changes))).map Handler.name).Nodup := by
    have hsubl : List.Sublist
        ((((load_handlers loads).filter
          (fun h => h.name != "replication")).filter
          (fun h => runsHook env h op changes))) (load_handlers loads) :=
      (List.filter_sublist _).trans (List.filter_sublist _)
    exact hnds.sublist (hsubl.map Handler.name)
  have hidx2 := indexOf_lt_of_pair_sublist _ h1.name h2.name hmap ht2nodup
  have hnot : ∀ h : Handler, h.name ≠ "replication" →
      h.name ∉ (handlers_pass env (fun x => x.name == "replication")
        (load_handlers loads) np op cmd changes).2 := by
    intro h hr hmem
    rw [handlers_pass_snd] at hmem
    obtain ⟨hx, hxm, hxe⟩ := List.mem_map.mp hmem
    have hb := (List.mem_filter.mp (List.mem_filter.mp hxm).1).2
    exact hr (hxe ▸ beq_iff_eq.mp hb)
  simp only [handlers_update]
  rw [List.indexOf_append_of_not_mem (hnot h1 h1r),
    List.indexOf_append_of_not_mem (hnot h2 h2r), handlers_pass_snd,
    handlers_pass_snd]
  exact Nat.add_lt_add_left hidx2 _

/-- Witness for the amended C5: two ordinary handlers loaded in priority
order are invoked in that order. -/
theorem claim_c5_witness :
    List.indexOf (Handler.name ⟨"a1", 1, none, false, false, 2⟩)
        ((handlers_update ⟨false, fun _ => true, fun _ => true⟩
          (load_handlers [⟨"a1", 1, none, false, false, 2⟩,
            ⟨"b2", 2, none, false, false, 2⟩]) [] [] 'm' (some ["x"])).2.2) <
      List.indexOf (Handler.name ⟨"b2", 2, none, false, false, 2⟩)
        ((handlers_update ⟨false, fun _ => true, fun _ => true⟩
          (load_handlers [⟨"a1", 1, none, false, false, 2⟩,
            ⟨"b2", 2, none, false, false, 2⟩]) [] [] 'm' (some ["x"])).2.2) :=
  claim_c5_priority_order ⟨false, fun _ => true, fun _ => true⟩
    [⟨"a1", 1, none, false, false, 2⟩, ⟨"b2", 2, none, false, false, 2⟩]
    [] [] 'm' (some ["x"])
    ⟨"a1", 1, none, false, false, 2⟩ ⟨"b2", 2, none, false, false, 2⟩
    (by decide) (by decide) (by decide)
    (Or.inl ⟨List.Sublist.refl _, by decide⟩)
    (by decide) (by decide)
